import Mathlib

/-!
Verification of the EMA scanner (`src/ema_scanner_yahoo.py`).

The script is embedded shallowly: prices are rationals (Python floats are
modelled by exact arithmetic), fallible operations return `Option` (`none`
stands for the exception the interpreter would raise, or for a missing key
in a parsed JSON document), and the concurrent scan loop is modelled as a
fold over the completion order of the fetches.
-/

namespace EmaScanner

/-- The single smoothing step of the EMA recurrence on line 22 of the
script: `ema = price * k + ema * (1 - k)`. -/
def emaStep (k : ℚ) (ema price : ℚ) : ℚ :=
  price * k + ema * (1 - k)

/-- The smoothing factor `k = 2 / (period + 1)` of line 19. -/
def smoothing (period : ℤ) : ℚ :=
  2 / ((period : ℚ) + 1)

/-- Python `calculate_ema(prices, period)` (lines 14-23).  The function
returns `some` of the computed float; `none` models the two exceptions the
body can raise: the `ZeroDivisionError` of `2 / (period + 1)` when
`period == -1`, and the `IndexError` of `prices[0]` on an empty list (both
reachable only for non-positive periods). -/
def calculate_ema (prices : List ℚ) (period : ℤ) : Option ℚ :=
  if (prices.length : ℤ) < period then some 0
  else if period + 1 = 0 then none
  else
    match prices with
    | [] => none
    | p :: rest => some (rest.foldl (emaStep (smoothing period)) p)

/-- The EMA as the spec describes it in its own words: seed the running
value with the first element, then for each subsequent element apply
`value = price * k + value * (1 - k)` with `k = 2 / (period + 1)`.  Written
from the spec sentence, to be compared with `calculate_ema`. -/
def emaSpecValue (prices : List ℚ) (period : ℤ) : Option ℚ :=
  match prices with
  | [] => none
  | first :: rest =>
      some (rest.foldl
        (fun value price =>
          price * (2 / ((period : ℚ) + 1)) + value * (1 - 2 / ((period : ℚ) + 1)))
        first)

/-- An instrument descriptor, the dict `{'symbol': ..., 'type': ...,
'name': ..., 'index': ...}` built by the three symbol-list functions. -/
structure Instrument where
  symbol : String
  type : String
  name : String
  index : String
deriving DecidableEq, Repr

/-- The flat record returned by a successful `fetch_yahoo_data`: the spread
instrument fields plus the five computed floats (lines 59-66). -/
structure ScanResult where
  symbol : String
  type : String
  name : String
  index : String
  currentPrice : ℚ
  ema50 : ℚ
  ema200 : ℚ
  ema50Distance : ℚ
  ema200Distance : ℚ
deriving DecidableEq, Repr

/-- The `quote` array entry of the Yahoo chart response.  `close = none`
models a missing `close` key (the unguarded subscription raises and the
bare handler returns `None`). -/
structure QuoteObj where
  close : Option (List (Option ℚ))
deriving DecidableEq, Repr

/-- The `indicators` object; `quote = none` models a missing `quote` key
(checked explicitly on line 46). -/
structure IndicatorsObj where
  quote : Option (List QuoteObj)
deriving DecidableEq, Repr

/-- One element of `chart.result`; `indicators = none` models a missing
`indicators` key (checked explicitly on line 46). -/
structure ResultObj where
  indicators : Option IndicatorsObj
deriving DecidableEq, Repr

/-- The `chart` object; `result = none` models a missing or null `result`
key, and an empty list is the falsy case of line 41. -/
structure ChartObj where
  result : Option (List ResultObj)
deriving DecidableEq, Repr

/-- A parsed response body; `chart = none` models a missing `chart` key. -/
structure YahooBody where
  chart : Option ChartObj
deriving DecidableEq, Repr

/-- An HTTP response as `fetch_yahoo_data` sees it: the status code and the
parsed JSON body (`body = none` models a body `response.json()` cannot
parse, whose exception the bare handler converts to `None`). -/
structure HttpResponse where
  status_code : ℤ
  body : Option YahooBody
deriving DecidableEq, Repr

/-- The null filter of line 50: `[c for c in closes if c is not None]`. -/
def closesOf (raw : List (Option ℚ)) : List ℚ :=
  raw.filterMap id

/-- The navigation of lines 39-49 from the response to the raw close list:
`data['chart']['result'][0]['indicators']['quote'][0]['close']`, with the
explicit structure checks of lines 41-47; `none` wherever the code returns
`None` or an unguarded access raises into the bare handler. -/
def extractCloses (resp : HttpResponse) : Option (List (Option ℚ)) :=
  match resp.body with
  | none => none
  | some d =>
      match d.chart with
      | none => none
      | some chart =>
          match chart.result with
          | none => none
          | some [] => none
          | some (result :: _) =>
              match result.indicators with
              | none => none
              | some ind =>
                  match ind.quote with
                  | none => none
                  | some [] => none
                  | some (q :: _) => q.close

/-- The degraded EMA-200 of line 57: a true 200-period EMA over the
trailing 200 closes when at least 200 exist, otherwise an EMA over the
whole series using its own length as the period. -/
def ema200value (closes : List ℚ) : Option ℚ :=
  if 200 ≤ closes.length then calculate_ema (closes.drop (closes.length - 200)) 200
  else calculate_ema closes (closes.length : ℤ)

/-- Lines 52-66 of `fetch_yahoo_data`, applied to the already-filtered
close list: the 50-point floor, the last close as current price, the two
EMAs (`closes[-50:]` is `drop (length - 50)`), and the two percentage
distances.  A zero EMA divisor raises `ZeroDivisionError` into the bare
handler, modelled by the explicit zero test returning `none`. -/
def buildResult (info : Instrument) (closes : List ℚ) : Option ScanResult :=
  if closes.length < 50 then none
  else
    closes.getLast?.bind fun current_price =>
      (calculate_ema (closes.drop (closes.length - 50)) 50).bind fun e50 =>
        (ema200value closes).bind fun e200 =>
          if e50 = 0 ∨ e200 = 0 then none
          else some
            { symbol := info.symbol
              type := info.type
              name := info.name
              index := info.index
              currentPrice := current_price
              ema50 := e50
              ema200 := e200
              ema50Distance := (current_price - e50) / e50 * 100
              ema200Distance := (current_price - e200) / e200 * 100 }

/-- Python `fetch_yahoo_data(symbol_info)` (lines 26-69) as a function of
the instrument and the HTTP response it receives: `none` for a non-200
status, for a body lacking the nested structure, for fewer than 50
non-null closes, and for any modelled exception (all caught by the bare
handler on line 68). -/
def fetch_yahoo_data (info : Instrument) (resp : HttpResponse) :
    Option ScanResult :=
  if resp.status_code ≠ 200 then none
  else
    match extractCloses resp with
    | none => none
    | some raw => buildResult info (closesOf raw)

/-- The deduplication loop of lines 176-181 of `main`: walk the merged
list, keeping an element only when its symbol has not been seen before
(the Python `seen` set is modelled by the list of seen symbols). -/
def dedupeAux (seen : List String) : List Instrument → List Instrument
  | [] => []
  | s :: rest =>
      if s.symbol ∈ seen then dedupeAux seen rest
      else s :: dedupeAux (s.symbol :: seen) rest

/-- Lines 173-181 of `main`: merge the S&P 500, NASDAQ and crypto lists in
that order, then deduplicate by symbol keeping first occurrences. -/
def buildUniverse (sp500 nasdaq crypto : List Instrument) :
    List Instrument :=
  dedupeAux [] (sp500 ++ nasdaq ++ crypto)

/-- The output dict of lines 210-217 (the timestamp and the fixed source
label carry no verified content and are omitted). -/
structure Report where
  totalScanned : ℕ
  successful : ℕ
  failed : ℕ
  data : List ScanResult
deriving DecidableEq, Repr

/-- One iteration of the collection loop of lines 200-207: a fetch that
returned a result is appended to `results`, a fetch that returned nothing
or raised increments `failed` (the bare handler on line 206 treats a
raising future exactly like a `None` result, so both are `none` here). -/
def classify (fetch : Instrument → Option ScanResult)
    (acc : List ScanResult × ℕ) (s : Instrument) : List ScanResult × ℕ :=
  match fetch s with
  | some r => (acc.1 ++ [r], acc.2)
  | none => (acc.1, acc.2 + 1)

/-- The whole collection loop of lines 189-207, folded over the completion
order of the futures (an arbitrary list, since `as_completed` guarantees
no order). -/
def scanFold (fetch : Instrument → Option ScanResult)
    (order : List Instrument) : List ScanResult × ℕ :=
  order.foldl (classify fetch) ([], 0)

/-- Lines 189-217 of `main`: run every fetch and assemble the report. -/
def runScan (fetch : Instrument → Option ScanResult)
    (order : List Instrument) : Report :=
  { totalScanned := order.length
    successful := (scanFold fetch order).1.length
    failed := (scanFold fetch order).2
    data := (scanFold fetch order).1 }

/-- The near-breakout filter of lines 232, 241 and 249:
`-3 < r.ema50Distance < 0`, price between 0% and 3% below the 50 EMA. -/
def nearList (results : List ScanResult) : List ScanResult :=
  results.filter fun r =>
    decide (-3 < r.ema50Distance ∧ r.ema50Distance < 0)

/-- The comparison of line 250: sort key is the absolute 50-EMA
distance. -/
def nearLe (a b : ScanResult) : Bool :=
  decide (|a.ema50Distance| ≤ |b.ema50Distance|)

/-- Line 250: the near-breakout list stably sorted by absolute distance
(Python `list.sort` is stable; so is `mergeSort`). -/
def sortedNear (results : List ScanResult) : List ScanResult :=
  (nearList results).mergeSort nearLe

/-- Line 254: the first 10 entries of the sorted near-breakout list. -/
def topNear (results : List ScanResult) : List ScanResult :=
  (sortedNear results).take 10

/-- A concrete instrument used to evaluate the fetch pipeline. -/
def sampleInfoC2 : Instrument :=
  { symbol := "AAPL", type := "stock", name := "Apple", index := "SPY" }

/-- A concrete raw close list: 50 non-null closes, all equal to 4. -/
def sampleRawC2 : List (Option ℚ) :=
  List.replicate 50 (some 4)

/-- The quote object of the concrete response. -/
def sampleQuoteC2 : QuoteObj :=
  { close := some sampleRawC2 }

/-- The indicators object of the concrete response. -/
def sampleIndicatorsC2 : IndicatorsObj :=
  { quote := some [sampleQuoteC2] }

/-- The chart-result element of the concrete response. -/
def sampleResultObjC2 : ResultObj :=
  { indicators := some sampleIndicatorsC2 }

/-- The chart object of the concrete response. -/
def sampleChartC2 : ChartObj :=
  { result := some [sampleResultObjC2] }

/-- A concrete well-formed 200-status response carrying `sampleRawC2`. -/
def sampleRespC2 : HttpResponse :=
  { status_code := 200, body := some { chart := some sampleChartC2 } }

/-- The record the fetch pipeline produces on `sampleRespC2`. -/
def sampleResultC2 : ScanResult :=
  { symbol := "AAPL", type := "stock", name := "Apple", index := "SPY"
    currentPrice := 4, ema50 := 4, ema200 := 4
    ema50Distance := 0, ema200Distance := 0 }

/-- A concrete instrument for the unusable-response evaluation. -/
def sampleInfoC3 : Instrument :=
  { symbol := "MSFT", type := "stock", name := "Microsoft", index := "SPY" }

/-- A concrete response with a non-success status and unparseable body. -/
def sampleRespC3 : HttpResponse :=
  { status_code := 404, body := none }

/-- A concrete instrument for the zero-close evaluation. -/
def infoC4 : Instrument :=
  { symbol := "ZERO", type := "stock", name := "Zero", index := "SPY" }

/-- 50 non-null closes, all exactly 0: usable by the 50-point floor, yet
with a zero EMA. -/
def zeroCloses : List (Option ℚ) :=
  List.replicate 50 (some 0)

/-- 50 strictly positive closes. -/
def posCloses : List ℚ :=
  List.replicate 50 3

end EmaScanner

namespace EmaScanner

lemma foldl_emaStep_const (k c : ℚ) (rest : List ℚ)
    (hrest : ∀ x ∈ rest, x = c) :
    rest.foldl (emaStep k) c = c := by
  induction rest with
  | nil => rfl
  | cons a t ih =>
      have ha : a = c := hrest a (List.mem_cons_self a t)
      have hc : emaStep k c a = c := by
        unfold emaStep
        rw [ha]; ring
      simp only [List.foldl_cons, hc]
      exact ih fun x hx => hrest x (List.mem_cons_of_mem a hx)

/-- C1: for a price sequence with at least `period` elements (`period` a
genuine period, i.e. at least 1), `calculate_ema` returns exactly the value
described by the spec: seed with the first element, then fold the
smoothing recurrence over the remaining elements in order. -/
theorem calculate_ema_eq_spec (period : ℤ) (prices : List ℚ)
    (hp : 1 ≤ period) (hlen : period ≤ (prices.length : ℤ)) :
    calculate_ema prices period = emaSpecValue prices period := by
  unfold calculate_ema
  rw [if_neg (by omega), if_neg (by omega)]
  cases prices with
  | nil => simp only [List.length_nil, Nat.cast_zero] at hlen; omega
  | cons p rest => rfl

/-- Witness for C1 at a concrete input: a three-element sequence with
period 2. -/
theorem calculate_ema_eq_spec_witness :
    (1 : ℤ) ≤ 2 ∧ (2 : ℤ) ≤ (([4, 7, 10] : List ℚ).length : ℤ) ∧
      calculate_ema [4, 7, 10] 2 = emaSpecValue [4, 7, 10] 2 :=
  ⟨by decide, by decide, calculate_ema_eq_spec 2 [4, 7, 10] (by decide) (by decide)⟩

/-- C5: for every period and every price sequence with fewer elements than
the period, `calculate_ema` returns the sentinel 0.0, not an error. -/
theorem calculate_ema_insufficient (period : ℤ) (prices : List ℚ)
    (h : (prices.length : ℤ) < period) :
    calculate_ema prices period = some 0 := by
  unfold calculate_ema
  rw [if_pos h]

/-- Witness for C5: the empty sequence with period 1 yields the sentinel. -/
theorem calculate_ema_insufficient_witness :
    (([] : List ℚ).length : ℤ) < 1 ∧ calculate_ema [] 1 = some 0 :=
  ⟨by decide, calculate_ema_insufficient 1 [] (by decide)⟩

lemma calculate_ema_const_core (period : ℤ) (c : ℚ) (prices : List ℚ)
    (hp : 1 ≤ period) (hlen : period ≤ (prices.length : ℤ))
    (hc : ∀ x ∈ prices, x = c) :
    calculate_ema prices period = some c := by
  unfold calculate_ema
  rw [if_neg (by omega), if_neg (by omega)]
  cases prices with
  | nil => simp only [List.length_nil, Nat.cast_zero] at hlen; omega
  | cons p rest =>
      have hp0 : p = c := hc p (List.mem_cons_self p rest)
      have hfold : rest.foldl (emaStep (smoothing period)) p = c := by
        rw [hp0]
        exact foldl_emaStep_const _ c rest
          fun x hx => hc x (List.mem_cons_of_mem p hx)
      show some (rest.foldl (emaStep (smoothing period)) p) = some c
      rw [hfold]

/-- C9: on a constant sequence of length at least `period` (with
`period ≥ 1`), `calculate_ema` returns the constant. -/
theorem calculate_ema_const (period : ℤ) (c : ℚ) (prices : List ℚ)
    (hp : 1 ≤ period) (hlen : period ≤ (prices.length : ℤ))
    (hc : ∀ x ∈ prices, x = c) :
    calculate_ema prices period = some c :=
  calculate_ema_const_core period c prices hp hlen hc

/-- Witness for C9: five copies of 7 with period 3 give EMA 7. -/
theorem calculate_ema_const_witness :
    calculate_ema [7, 7, 7, 7, 7] 3 = some 7 :=
  calculate_ema_const 3 7 [7, 7, 7, 7, 7] (by decide) (by decide) (by decide)

/-- C10: for every period at least 1, `calculate_ema` returns a value on
every sequence (the short-sequence sentinel fires before any indexing, and
otherwise the sequence is non-empty and `period + 1` is non-zero, so
neither modelled exception is reachable).  For non-positive periods the
guarantee indeed fails: the empty sequence with period 0 reaches the
indexing of the first element. -/
theorem calculate_ema_total (period : ℤ) (prices : List ℚ)
    (hp : 1 ≤ period) :
    (calculate_ema prices period).isSome := by
  unfold calculate_ema
  by_cases hlt : (prices.length : ℤ) < period
  · rw [if_pos hlt]; rfl
  · rw [if_neg hlt, if_neg (by omega)]
    cases prices with
    | nil => simp only [List.length_nil, Nat.cast_zero, not_lt] at hlt; omega
    | cons p rest => rfl

/-- Witness for C10: period 1 on a singleton sequence returns a value. -/
theorem calculate_ema_total_witness :
    (1 : ℤ) ≤ 1 ∧ (calculate_ema [3] 1).isSome :=
  ⟨by decide, calculate_ema_total 1 [3] (by decide)⟩

/-- C3: the fetcher returns no result, and raises nothing (it is a total
function into `Option`), whenever the HTTP status is not 200, or the body
lacks the nested chart/result/indicators/quote/close structure, or fewer
than 50 non-null closes remain after the null filter. -/
theorem fetch_unusable_none (info : Instrument) (resp : HttpResponse)
    (h : resp.status_code ≠ 200 ∨ extractCloses resp = none ∨
      ∃ raw, extractCloses resp = some raw ∧ (closesOf raw).length < 50) :
    fetch_yahoo_data info resp = none := by
  unfold fetch_yahoo_data
  rcases h with h | h | ⟨raw, hraw, hlen⟩
  · rw [if_pos h]
  · by_cases hs : resp.status_code ≠ 200
    · rw [if_pos hs]
    · rw [if_neg hs, h]
  · by_cases hs : resp.status_code ≠ 200
    · rw [if_pos hs]
    · rw [if_neg hs, hraw]
      show buildResult info (closesOf raw) = none
      unfold buildResult
      rw [if_pos hlen]

/-- Witness for C3: a 404 response with an unparseable body yields no
result. -/
theorem fetch_unusable_none_witness :
    (sampleRespC3.status_code ≠ 200 ∨ extractCloses sampleRespC3 = none ∨
      ∃ raw, extractCloses sampleRespC3 = some raw ∧ (closesOf raw).length < 50) ∧
    fetch_yahoo_data sampleInfoC3 sampleRespC3 = none :=
  ⟨Or.inl (by decide),
   fetch_unusable_none sampleInfoC3 sampleRespC3 (Or.inl (by decide))⟩

lemma getLast?_replicate (n : ℕ) (c : ℚ) (hn : n ≠ 0) :
    (List.replicate n c).getLast? = some c := by
  cases n with
  | zero => omega
  | succ m =>
      rw [List.getLast?_eq_getLast_of_ne_nil (by simp)]
      rw [List.getLast_replicate_succ]

lemma calculate_ema_replicate (n : ℕ) (c : ℚ) (p : ℤ) (hp : 1 ≤ p)
    (hlen : p ≤ (n : ℤ)) :
    calculate_ema (List.replicate n c) p = some c :=
  calculate_ema_const_core p c _ hp (by simpa using hlen)
    fun x hx => List.eq_of_mem_replicate hx

lemma ema200value_ge (closes : List ℚ) (h : 200 ≤ closes.length) :
    ema200value closes = calculate_ema (closes.drop (closes.length - 200)) 200 := by
  unfold ema200value
  rw [if_pos h]

lemma ema200value_lt (closes : List ℚ) (h : closes.length < 200) :
    ema200value closes = calculate_ema closes (closes.length : ℤ) := by
  unfold ema200value
  rw [if_neg (by omega)]

lemma fetch_some_buildResult (info : Instrument) (resp : HttpResponse)
    (raw : List (Option ℚ)) (r : ScanResult)
    (hraw : extractCloses resp = some raw)
    (hr : fetch_yahoo_data info resp = some r) :
    buildResult info (closesOf raw) = some r := by
  unfold fetch_yahoo_data at hr
  by_cases hs : resp.status_code ≠ 200
  · rw [if_pos hs] at hr; exact absurd hr (by simp)
  · rw [if_neg hs, hraw] at hr; exact hr

lemma buildResult_fields (info : Instrument) (closes : List ℚ)
    (r : ScanResult) (h : buildResult info closes = some r) :
    50 ≤ closes.length ∧
    closes.getLast? = some r.currentPrice ∧
    calculate_ema (closes.drop (closes.length - 50)) 50 = some r.ema50 ∧
    ema200value closes = some r.ema200 ∧
    r.ema50Distance = (r.currentPrice - r.ema50) / r.ema50 * 100 ∧
    r.ema200Distance = (r.currentPrice - r.ema200) / r.ema200 * 100 := by
  unfold buildResult at h
  by_cases h50 : closes.length < 50
  · rw [if_pos h50] at h; exact absurd h (by simp)
  · rw [if_neg h50] at h
    obtain ⟨cp, hl, h⟩ := Option.bind_eq_some.mp h
    obtain ⟨e50, h5, h⟩ := Option.bind_eq_some.mp h
    obtain ⟨e200, h2, h⟩ := Option.bind_eq_some.mp h
    by_cases hz : e50 = 0 ∨ e200 = 0
    · rw [if_pos hz] at h; exact absurd h (by simp)
    · rw [if_neg hz] at h
      have hrec := Option.some.inj h
      subst hrec
      exact ⟨by omega, hl, h5, h2, rfl, rfl⟩

/-- C2: whenever the fetcher returns a result from a response whose
structure yielded the raw close list `raw`, the result's current price is
the last filtered close, its ema50 is the 50-period EMA of the trailing 50
closes, its ema200 is the 200-period EMA of the trailing 200 closes when
at least 200 exist and otherwise the EMA of the whole series with the
series length as the period (in particular, for exactly 50 closes a
50-period EMA over the same data), and both distances satisfy
`(price - ema) / ema * 100`. -/
theorem fetch_usable_fields (info : Instrument) (resp : HttpResponse)
    (raw : List (Option ℚ)) (r : ScanResult)
    (hraw : extractCloses resp = some raw)
    (hr : fetch_yahoo_data info resp = some r) :
    (closesOf raw).getLast? = some r.currentPrice ∧
    calculate_ema ((closesOf raw).drop ((closesOf raw).length - 50)) 50
      = some r.ema50 ∧
    (200 ≤ (closesOf raw).length →
      calculate_ema ((closesOf raw).drop ((closesOf raw).length - 200)) 200
        = some r.ema200) ∧
    ((closesOf raw).length < 200 →
      calculate_ema (closesOf raw) ((closesOf raw).length : ℤ)
        = some r.ema200) ∧
    ((closesOf raw).length = 50 →
      calculate_ema (closesOf raw) 50 = some r.ema200) ∧
    r.ema50Distance = (r.currentPrice - r.ema50) / r.ema50 * 100 ∧
    r.ema200Distance = (r.currentPrice - r.ema200) / r.ema200 * 100 := by
  have hb := fetch_some_buildResult info resp raw r hraw hr
  obtain ⟨-, hlast, h5, h2, hd5, hd2⟩ := buildResult_fields _ _ _ hb
  refine ⟨hlast, h5, ?_, ?_, ?_, hd5, hd2⟩
  · intro hge
    rw [ema200value_ge _ hge] at h2
    exact h2
  · intro hlt
    rw [ema200value_lt _ hlt] at h2
    exact h2
  · intro h50
    rw [ema200value_lt _ (by omega)] at h2
    rw [h50] at h2
    exact_mod_cast h2

lemma buildResult_replicate (info : Instrument) (n : ℕ) (c : ℚ)
    (h50 : 50 ≤ n) (h200 : n < 200) (hc : c ≠ 0) :
    buildResult info (List.replicate n c) = some
      { symbol := info.symbol, type := info.type, name := info.name
        index := info.index, currentPrice := c, ema50 := c, ema200 := c
        ema50Distance := 0, ema200Distance := 0 } := by
  unfold buildResult
  rw [if_neg (by simp only [List.length_replicate]; omega),
      getLast?_replicate n c (by omega),
      List.length_replicate, List.drop_replicate,
      calculate_ema_replicate (n - (n - 50)) c 50 (by norm_num) (by omega),
      ema200value_lt _ (by simp only [List.length_replicate]; omega),
      List.length_replicate,
      calculate_ema_replicate n c (n : ℤ) (by omega) (by omega)]
  simp only [Option.some_bind]
  rw [if_neg (by tauto)]
  rw [sub_self, zero_div, zero_mul]

lemma buildResult_replicate_zero (info : Instrument) (n : ℕ)
    (h50 : 50 ≤ n) (h200 : n < 200) :
    buildResult info (List.replicate n (0 : ℚ)) = none := by
  unfold buildResult
  rw [if_neg (by simp only [List.length_replicate]; omega),
      getLast?_replicate n 0 (by omega),
      List.length_replicate, List.drop_replicate,
      calculate_ema_replicate (n - (n - 50)) 0 50 (by norm_num) (by omega),
      ema200value_lt _ (by simp only [List.length_replicate]; omega),
      List.length_replicate,
      calculate_ema_replicate n 0 (n : ℤ) (by omega) (by omega)]
  simp only [Option.some_bind]
  simp

lemma fetch_sample_eval :
    fetch_yahoo_data sampleInfoC2 sampleRespC2 = some sampleResultC2 := by
  show buildResult sampleInfoC2 (closesOf sampleRawC2) = some sampleResultC2
  rw [show closesOf sampleRawC2 = List.replicate 50 (4 : ℚ) from rfl]
  rw [buildResult_replicate sampleInfoC2 50 4 (by norm_num) (by norm_num)
    (by norm_num)]
  rfl

/-- Witness for C2: evaluating the pipeline on a concrete response with 50
constant closes. -/
theorem fetch_usable_fields_witness :
    (closesOf sampleRawC2).getLast? = some sampleResultC2.currentPrice ∧
    calculate_ema ((closesOf sampleRawC2).drop ((closesOf sampleRawC2).length - 50)) 50
      = some sampleResultC2.ema50 ∧
    (200 ≤ (closesOf sampleRawC2).length →
      calculate_ema ((closesOf sampleRawC2).drop ((closesOf sampleRawC2).length - 200)) 200
        = some sampleResultC2.ema200) ∧
    ((closesOf sampleRawC2).length < 200 →
      calculate_ema (closesOf sampleRawC2) ((closesOf sampleRawC2).length : ℤ)
        = some sampleResultC2.ema200) ∧
    ((closesOf sampleRawC2).length = 50 →
      calculate_ema (closesOf sampleRawC2) 50 = some sampleResultC2.ema200) ∧
    sampleResultC2.ema50Distance
      = (sampleResultC2.currentPrice - sampleResultC2.ema50) / sampleResultC2.ema50 * 100 ∧
    sampleResultC2.ema200Distance
      = (sampleResultC2.currentPrice - sampleResultC2.ema200) / sampleResultC2.ema200 * 100 :=
  fetch_usable_fields sampleInfoC2 sampleRespC2 sampleRawC2 sampleResultC2
    rfl fetch_sample_eval

lemma foldl_emaStep_pos (k : ℚ) (hk0 : 0 < k) (hk1 : k ≤ 1) :
    ∀ l : List ℚ, (∀ x ∈ l, 0 < x) → ∀ a : ℚ, 0 < a →
      0 < l.foldl (emaStep k) a := by
  intro l
  induction l with
  | nil => intro _ a ha; exact ha
  | cons x t ih =>
      intro hl a ha
      have hx : 0 < x := hl x (List.mem_cons_self x t)
      have hstep : 0 < emaStep k a x := by
        unfold emaStep
        have h1 : 0 < x * k := mul_pos hx hk0
        have h2 : 0 ≤ a * (1 - k) := mul_nonneg ha.le (by linarith)
        linarith
      simp only [List.foldl_cons]
      exact ih (fun y hy => hl y (List.mem_cons_of_mem x hy)) _ hstep

lemma calculate_ema_pos (prices : List ℚ) (period : ℤ)
    (hp : 1 ≤ period) (hlen : period ≤ (prices.length : ℤ))
    (hpos : ∀ x ∈ prices, 0 < x) :
    ∃ v, calculate_ema prices period = some v ∧ 0 < v := by
  have hcast : (1 : ℚ) ≤ (period : ℚ) := by exact_mod_cast hp
  have hk0 : 0 < smoothing period := by
    unfold smoothing
    apply div_pos (by norm_num)
    linarith
  have hk1 : smoothing period ≤ 1 := by
    unfold smoothing
    rw [div_le_one (by linarith)]
    linarith
  unfold calculate_ema
  rw [if_neg (by omega), if_neg (by omega)]
  cases prices with
  | nil => simp only [List.length_nil, Nat.cast_zero] at hlen; omega
  | cons p rest =>
      refine ⟨_, rfl, ?_⟩
      exact foldl_emaStep_pos _ hk0 hk1 rest
        (fun y hy => hpos y (List.mem_cons_of_mem p hy)) p
        (hpos p (List.mem_cons_self p rest))

/-- Counterexample to C4 as stated: 50 closes all exactly 0 pass the
50-point floor (the null filter keeps them), yet the 50-period EMA used as
a divisor is exactly 0 without any sentinel involved, and the pipeline
falls into the division-by-zero path (caught by the bare handler, so the
fetch yields no result). -/
theorem ema_divisor_zero_counterexample :
    50 ≤ (closesOf zeroCloses).length ∧
    calculate_ema
        ((closesOf zeroCloses).drop ((closesOf zeroCloses).length - 50)) 50
      = some 0 ∧
    buildResult infoC4 (closesOf zeroCloses) = none := by
  rw [show closesOf zeroCloses = List.replicate 50 (0 : ℚ) from rfl]
  refine ⟨by simp, ?_,
    buildResult_replicate_zero infoC4 50 (by norm_num) (by norm_num)⟩
  rw [List.length_replicate, List.drop_replicate]
  exact calculate_ema_replicate (50 - (50 - 50)) 0 50 (by norm_num) (by omega)

/-- C4 amended: on a usable series all of whose closes are strictly
positive, both EMA divisors are non-zero (indeed positive), so the
unguarded percentage-distance divisions never divide by zero and the
pipeline returns a result; the insufficient-data sentinel is not the only
source of a zero EMA, since unfiltered zero closes also produce one. -/
theorem ema_divisors_nonzero_of_pos (info : Instrument) (closes : List ℚ)
    (hpos : ∀ x ∈ closes, 0 < x) (h50 : 50 ≤ closes.length) :
    ∃ e50 e200,
      calculate_ema (closes.drop (closes.length - 50)) 50 = some e50 ∧
      ema200value closes = some e200 ∧ e50 ≠ 0 ∧ e200 ≠ 0 ∧
      ∃ r, buildResult info closes = some r := by
  have hdl : (closes.drop (closes.length - 50)).length = 50 := by
    rw [List.length_drop]; omega
  obtain ⟨e50, h5, h5pos⟩ :=
    calculate_ema_pos (closes.drop (closes.length - 50)) 50 (by norm_num)
      (by omega) (fun x hx => hpos x (List.mem_of_mem_drop hx))
  obtain ⟨e200, h2, h2pos⟩ :
      ∃ v, ema200value closes = some v ∧ 0 < v := by
    by_cases hc : 200 ≤ closes.length
    · rw [ema200value_ge _ hc]
      have hdl2 : (closes.drop (closes.length - 200)).length = 200 := by
        rw [List.length_drop]; omega
      exact calculate_ema_pos _ 200 (by norm_num) (by omega)
        (fun x hx => hpos x (List.mem_of_mem_drop hx))
    · rw [ema200value_lt _ (by omega)]
      exact calculate_ema_pos _ _ (by omega) (by omega) hpos
  have hne : closes ≠ [] := by
    intro hemp
    rw [hemp] at h50
    simp at h50
  obtain ⟨cp, hcp⟩ : ∃ cp, closes.getLast? = some cp :=
    ⟨closes.getLast hne, List.getLast?_eq_getLast_of_ne_nil hne⟩
  refine ⟨e50, e200, h5, h2, ne_of_gt h5pos, ne_of_gt h2pos, ?_⟩
  unfold buildResult
  rw [if_neg (by omega), hcp, h5, h2]
  simp only [Option.some_bind]
  rw [if_neg (by push_neg; exact ⟨ne_of_gt h5pos, ne_of_gt h2pos⟩)]
  exact ⟨_, rfl⟩

/-- Witness for the amended C4: 50 closes all equal to 3. -/
theorem ema_divisors_nonzero_of_pos_witness :
    (∀ x ∈ posCloses, (0 : ℚ) < x) ∧ 50 ≤ posCloses.length ∧
    (∃ e50 e200,
      calculate_ema (posCloses.drop (posCloses.length - 50)) 50 = some e50 ∧
      ema200value posCloses = some e200 ∧ e50 ≠ 0 ∧ e200 ≠ 0 ∧
      ∃ r, buildResult infoC4 posCloses = some r) :=
  ⟨fun x hx => by
      rw [List.eq_of_mem_replicate
        (show x ∈ List.replicate 50 (3 : ℚ) from hx)]
      norm_num,
   by simp [posCloses],
   ema_divisors_nonzero_of_pos infoC4 posCloses
     (fun x hx => by
        rw [List.eq_of_mem_replicate
          (show x ∈ List.replicate 50 (3 : ℚ) from hx)]
        norm_num)
     (by simp [posCloses])⟩

lemma dedupeAux_mem : ∀ (l : List Instrument) (seen : List String)
    (r : Instrument), r ∈ dedupeAux seen l → r.symbol ∉ seen ∧ r ∈ l := by
  intro l
  induction l with
  | nil => intro seen r h; simp [dedupeAux] at h
  | cons s rest ih =>
      intro seen r h
      unfold dedupeAux at h
      by_cases hs : s.symbol ∈ seen
      · rw [if_pos hs] at h
        obtain ⟨h1, h2⟩ := ih seen r h
        exact ⟨h1, List.mem_cons_of_mem s h2⟩
      · rw [if_neg hs] at h
        rcases List.mem_cons.mp h with h | h
        · subst h
          exact ⟨hs, List.mem_cons_self _ _⟩
        · obtain ⟨h1, h2⟩ := ih _ r h
          exact ⟨fun hx => h1 (List.mem_cons_of_mem _ hx),
            List.mem_cons_of_mem s h2⟩

lemma dedupeAux_nodup_symbols : ∀ (l : List Instrument)
    (seen : List String),
    ((dedupeAux seen l).map Instrument.symbol).Nodup := by
  intro l
  induction l with
  | nil => intro seen; simp [dedupeAux]
  | cons s rest ih =>
      intro seen
      unfold dedupeAux
      by_cases hs : s.symbol ∈ seen
      · rw [if_pos hs]
        exact ih seen
      · rw [if_neg hs]
        simp only [List.map_cons, List.nodup_cons]
        refine ⟨?_, ih _⟩
        intro hmem
        obtain ⟨r, hr, hsym⟩ := List.mem_map.mp hmem
        apply (dedupeAux_mem rest _ r hr).1
        rw [hsym]
        exact List.mem_cons_self _ _

lemma dedupeAux_mem_symbols : ∀ (l : List Instrument) (seen : List String)
    (sym : String),
    sym ∈ (dedupeAux seen l).map Instrument.symbol ↔
      sym ∉ seen ∧ sym ∈ l.map Instrument.symbol := by
  intro l
  induction l with
  | nil => intro seen sym; simp [dedupeAux]
  | cons s rest ih =>
      intro seen sym
      unfold dedupeAux
      by_cases hs : s.symbol ∈ seen
      · rw [if_pos hs, ih]
        simp only [List.map_cons, List.mem_cons]
        constructor
        · rintro ⟨h1, h2⟩
          exact ⟨h1, Or.inr h2⟩
        · rintro ⟨h1, h2 | h2⟩
          · exact absurd (h2 ▸ hs) h1
          · exact ⟨h1, h2⟩
      · rw [if_neg hs]
        simp only [List.map_cons, List.mem_cons, ih]
        constructor
        · rintro (h | ⟨h1, h2⟩)
          · exact ⟨by rw [h]; exact hs, Or.inl h⟩
          · exact ⟨fun hx => h1 (Or.inr hx), Or.inr h2⟩
        · rintro ⟨h1, h2 | h2⟩
          · exact Or.inl h2
          · by_cases he : sym = s.symbol
            · exact Or.inl he
            · exact Or.inr ⟨fun hor => hor.elim he h1, h2⟩

lemma dedupeAux_find : ∀ (l : List Instrument) (seen : List String)
    (r : Instrument), r ∈ dedupeAux seen l →
      l.find? (fun s => s.symbol == r.symbol) = some r := by
  intro l
  induction l with
  | nil => intro seen r h; simp [dedupeAux] at h
  | cons s rest ih =>
      intro seen r h
      unfold dedupeAux at h
      by_cases hs : s.symbol ∈ seen
      · rw [if_pos hs] at h
        have hns := (dedupeAux_mem rest seen r h).1
        have hne : s.symbol ≠ r.symbol := by
          intro he
          exact hns (he ▸ hs)
        rw [List.find?_cons_of_neg _ (by simp [hne])]
        exact ih seen r h
      · rw [if_neg hs] at h
        rcases List.mem_cons.mp h with h | h
        · subst h
          rw [List.find?_cons_of_pos _ (by simp)]
        · have hns := (dedupeAux_mem rest _ r h).1
          have hne : s.symbol ≠ r.symbol := by
            intro he
            exact hns (he ▸ List.mem_cons_self _ _)
          rw [List.find?_cons_of_neg _ (by simp [hne])]
          exact ih _ r h

/-- C6: for any three input lists merged in order, the universe has no
two entries with the same symbol, its symbols are exactly the symbols of
the merged input, and every retained entry is the full descriptor (name
and index included) of the first occurrence of its symbol in merge
order. -/
theorem universe_dedup (A B C : List Instrument) :
    ((buildUniverse A B C).map Instrument.symbol).Nodup ∧
    (∀ sym, sym ∈ (buildUniverse A B C).map Instrument.symbol ↔
      sym ∈ (A ++ B ++ C).map Instrument.symbol) ∧
    (∀ r ∈ buildUniverse A B C,
      (A ++ B ++ C).find? (fun s => s.symbol == r.symbol) = some r) := by
  refine ⟨dedupeAux_nodup_symbols _ [], ?_, ?_⟩
  · intro sym
    rw [show buildUniverse A B C = dedupeAux [] (A ++ B ++ C) from rfl,
      dedupeAux_mem_symbols]
    simp
  · intro r hr
    exact dedupeAux_find _ [] r hr

lemma foldl_classify (fetch : Instrument → Option ScanResult) :
    ∀ (order : List Instrument) (acc : List ScanResult) (k : ℕ),
      order.foldl (classify fetch) (acc, k)
        = (acc ++ order.filterMap fetch,
           k + order.countP fun s => (fetch s).isNone) := by
  intro order
  induction order with
  | nil => intro acc k; simp
  | cons s rest ih =>
      intro acc k
      simp only [List.foldl_cons]
      cases hf : fetch s with
      | some r =>
          rw [show classify fetch (acc, k) s = (acc ++ [r], k) from by
            unfold classify; rw [hf]]
          rw [ih (acc ++ [r]) k]
          rw [List.filterMap_cons_some hf,
            List.countP_cons_of_neg _ _ (by simp [hf])]
          rw [List.append_assoc]
          rfl
      | none =>
          rw [show classify fetch (acc, k) s = (acc, k + 1) from by
            unfold classify; rw [hf]]
          rw [ih acc (k + 1)]
          rw [List.filterMap_cons_none hf,
            List.countP_cons_of_pos _ _ (by simp [hf])]
          rw [Prod.mk.injEq]
          exact ⟨rfl, by omega⟩

lemma length_filterMap_eq_countP
    (fetch : Instrument → Option ScanResult) :
    ∀ order : List Instrument,
      (order.filterMap fetch).length
        = order.countP fun s => (fetch s).isSome := by
  intro order
  induction order with
  | nil => simp
  | cons s rest ih =>
      cases hf : fetch s with
      | some r =>
          rw [List.filterMap_cons_some hf, List.countP_cons]
          simp [hf, ih]
      | none =>
          rw [List.filterMap_cons_none hf, List.countP_cons]
          simp [hf, ih]

lemma countP_isSome_add_isNone
    (fetch : Instrument → Option ScanResult) :
    ∀ order : List Instrument,
      (order.countP fun s => (fetch s).isSome)
        + (order.countP fun s => (fetch s).isNone) = order.length := by
  intro order
  induction order with
  | nil => simp
  | cons s rest ih =>
      rw [List.countP_cons, List.countP_cons]
      cases hf : fetch s with
      | some r => simp [hf]; omega
      | none => simp [hf]; omega

/-- C7: for every fetch outcome function and every completion order over
the universe, the report counts the whole universe as scanned, the
successful fetches as `successful`, the fetches that yielded nothing
(returned `None` or raised, both `none` here) as `failed`, with
`totalScanned = successful + failed`, and its data array is exactly the
successful results in completion order. -/
theorem scan_report (fetch : Instrument → Option ScanResult)
    (order : List Instrument) :
    (runScan fetch order).totalScanned = order.length ∧
    (runScan fetch order).successful
      = (order.countP fun s => (fetch s).isSome) ∧
    (runScan fetch order).failed
      = (order.countP fun s => (fetch s).isNone) ∧
    (runScan fetch order).totalScanned
      = (runScan fetch order).successful + (runScan fetch order).failed ∧
    (runScan fetch order).data = order.filterMap fetch := by
  have hfold := foldl_classify fetch order [] 0
  have hdata : (scanFold fetch order).1 = order.filterMap fetch := by
    unfold scanFold
    rw [hfold]
    simp
  have hfail : (scanFold fetch order).2
      = order.countP fun s => (fetch s).isNone := by
    unfold scanFold
    rw [hfold]
    simp
  refine ⟨rfl, ?_, hfail, ?_, hdata⟩
  · show (scanFold fetch order).1.length = _
    rw [hdata]
    exact length_filterMap_eq_countP fetch order
  · show order.length = (scanFold fetch order).1.length + (scanFold fetch order).2
    rw [hdata, hfail, length_filterMap_eq_countP fetch order]
    rw [countP_isSome_add_isNone fetch order]

lemma nearLe_trans : ∀ a b c : ScanResult,
    nearLe a b → nearLe b c → nearLe a c := by
  intro a b c hab hbc
  simp only [nearLe, decide_eq_true_eq] at hab hbc ⊢
  exact le_trans hab hbc

lemma nearLe_total : ∀ a b : ScanResult, nearLe a b || nearLe b a := by
  intro a b
  simp only [nearLe]
  rcases le_total |a.ema50Distance| |b.ema50Distance| with h | h
  · simp [h]
  · simp [h]

/-- C8: an instrument is on the near-breakout list exactly when it is a
result whose 50-EMA distance is strictly between -3 and 0; the sorted
near list is ordered by ascending absolute distance; the top list is the
first 10 of it, together with the dropped remainder it is a permutation
of the whole near list, and every listed entry has absolute distance at
most that of every entry not listed — i.e. the top list is the 10 nearest
near-breakout results sorted ascending by absolute distance. -/
theorem near_breakout_top (results : List ScanResult) :
    (∀ r, r ∈ nearList results ↔
      r ∈ results ∧ -3 < r.ema50Distance ∧ r.ema50Distance < 0) ∧
    (sortedNear results).Pairwise
      (fun a b => |a.ema50Distance| ≤ |b.ema50Distance|) ∧
    (topNear results).length = min 10 (nearList results).length ∧
    List.Perm (topNear results ++ (sortedNear results).drop 10)
      (nearList results) ∧
    (∀ x ∈ topNear results, ∀ y ∈ (sortedNear results).drop 10,
      |x.ema50Distance| ≤ |y.ema50Distance|) := by
  have hperm : List.Perm (sortedNear results) (nearList results) :=
    List.mergeSort_perm (nearList results) nearLe
  have hsorted : (sortedNear results).Pairwise
      (fun a b => |a.ema50Distance| ≤ |b.ema50Distance|) := by
    have h := List.sorted_mergeSort nearLe_trans nearLe_total
      (nearList results)
    exact h.imp fun hab => of_decide_eq_true hab
  refine ⟨?_, hsorted, ?_, ?_, ?_⟩
  · intro r
    simp [nearList, List.mem_filter]
  · show ((sortedNear results).take 10).length = _
    rw [List.length_take, hperm.length_eq]
  · show List.Perm
      ((sortedNear results).take 10 ++ (sortedNear results).drop 10) _
    rw [List.take_append_drop]
    exact hperm
  · intro x hx y hy
    have hsplit := hsorted
    rw [← List.take_append_drop 10 (sortedNear results)] at hsplit
    exact (List.pairwise_append.mp hsplit).2.2 x hx y hy

end EmaScanner
